import Mathlib

/-!
Shallow embedding of the PSoC6 crypto-core AES v1 driver
(`cy_crypto_core_aes_v1.c`) and proofs of the specification claims.

Memory is modelled byte-wise: a buffer is a `List Nat` whose entries are the
bytes (callers are byte-valued, `< 256`, where a claim needs it).  The
accelerator's single-block transform (`Cy_Crypto_Core_V1_Aes_ProcessBlock`)
is an external capability: it is a parameter `E` (forward schedule, key slot)
resp. `D` (inverse schedule, invKey slot) of every definition that drives it.
The raw copy/zero primitives (`Cy_Crypto_Core_V1_MemCpy` /
`Cy_Crypto_Core_V1_MemSet`) are the spec's assumed-correct `raw_copy` /
`raw_zero`: a 16-byte copy of `src` into a byte buffer `dst` is
`src.take 16` (into a scratch slot) or `src.take 16 ++ dst.drop 16`
(into a caller buffer at offset 0), and sequential per-block writes at
offsets 0, 16, 32, … of `dst` assemble as `out ++ dst.drop out.length`.
-/

namespace CryptoAesV1

/-- Status codes returned by the driver entry points.  `CY_CRYPTO_SUCCESS`
and `CY_CRYPTO_SIZE_NOT_X16` appear in `cy_crypto_core_aes_v1.c`;
`CY_CRYPTO_BAD_PARAMS` is the status the spec calls `InvalidKeyLength`
(the enum itself lives in a header outside the sample). -/
inductive cy_en_crypto_status_t where
  | CY_CRYPTO_SUCCESS
  | CY_CRYPTO_BAD_PARAMS
  | CY_CRYPTO_SIZE_NOT_X16
deriving DecidableEq

/-- Direction selector for the block transform (`cy_en_crypto_dir_mode_t`). -/
inductive cy_en_crypto_dir_mode_t where
  | CY_CRYPTO_ENCRYPT
  | CY_CRYPTO_DECRYPT
deriving DecidableEq

open cy_en_crypto_status_t cy_en_crypto_dir_mode_t

/-- Block size in bytes (`CY_CRYPTO_AES_BLOCK_SIZE`). -/
def CY_CRYPTO_AES_BLOCK_SIZE : Nat := 16

/-- Largest key size in bytes (`CY_CRYPTO_AES_256_KEY_SIZE`). -/
def CY_CRYPTO_AES_256_KEY_SIZE : Nat := 32

/-- The shared scratch region `cy_stc_crypto_aes_buffers_t` addressed through
`REG_CRYPTO_MEM_BUFF`.  Modelled from the spec: the struct itself is declared
in a header outside the sample; its fields and their sizes follow the spec's
scratch layout (key slot and inverse-key slot sized for the largest 32-byte
key, three 16-byte working blocks, one 16-byte IV/counter slot), and every
field is referenced by name in `cy_crypto_core_aes_v1.c`. -/
structure cy_stc_crypto_aes_buffers_t where
  key    : List Nat
  keyInv : List Nat
  block0 : List Nat
  block1 : List Nat
  block2 : List Nat
  iv     : List Nat
deriving DecidableEq

/-- The accelerator's 16-byte XOR (`Cy_Crypto_Core_V1_Aes_Xor`,
opcode `CY_CRYPTO_V1_AES_XOR_OPC`): `dst = src0 ^ src1`, byte-wise. -/
def xor16 (src0 src1 : List Nat) : List Nat :=
  List.zipWith Nat.xor src0 src1

/-- The accelerator's single-block cipher (`Cy_Crypto_Core_V1_Aes_ProcessBlock`):
`CY_CRYPTO_DECRYPT` runs the inverse transform `D` under `aesState->invKey`,
any other direction runs the forward transform `E` under `aesState->key`. -/
def Cy_Crypto_Core_V1_Aes_ProcessBlock (E D : List Nat → List Nat)
    (dirMode : cy_en_crypto_dir_mode_t) (srcBlock : List Nat) : List Nat :=
  match dirMode with
  | CY_CRYPTO_DECRYPT => D srcBlock
  | CY_CRYPTO_ENCRYPT => E srcBlock

/-- Result of `Cy_Crypto_Core_V1_Aes_Init`: the status, the recorded
`aesState->keyLength`, and the scratch region after the key copy and
inverse-key derivation. -/
structure InitResult where
  status       : cy_en_crypto_status_t
  keyLengthOut : Nat
  bufsOut      : cy_stc_crypto_aes_buffers_t
deriving DecidableEq

/-- `Cy_Crypto_Core_V1_Aes_Init`.  `invKeySched` is the accelerator's
key-schedule derivation (`Cy_Crypto_Core_V1_Aes_InvKey`, opcode
`CY_CRYPTO_V1_AES_KEY_OPC`), an external primitive mapping the key slot to
the inverse-key slot.  The C function
  1. stores `keyLength` into `aesState->keyLength` (and programs the
     hardware KEY_SIZE register, which is outside the memory model),
  2. copies `CY_CRYPTO_AES_256_KEY_SIZE` (32) bytes from the caller's `key`
     into the key slot — unconditionally, whatever `keyLength` is,
  3. derives the inverse-key slot from the key slot,
  4. returns `CY_CRYPTO_SUCCESS` — there is no validation of `keyLength`
     and no other return path.
`keyLength` is the numeric value of the `cy_en_crypto_aes_key_length_t`
argument. -/
def Cy_Crypto_Core_V1_Aes_Init (invKeySched : List Nat → List Nat)
    (key : List Nat) (keyLength : Nat)
    (bufs : cy_stc_crypto_aes_buffers_t) : InitResult :=
  let key' := key.take CY_CRYPTO_AES_256_KEY_SIZE
  { status := CY_CRYPTO_SUCCESS
    keyLengthOut := keyLength
    bufsOut := { bufs with key := key', keyInv := invKeySched key' } }

/-- `Cy_Crypto_Core_V1_Aes_Free`: `MemSet(REG_CRYPTO_MEM_BUFF(base), 0,
sizeof(cy_stc_crypto_aes_buffers_t))` — every byte of the scratch region
becomes zero. -/
def Cy_Crypto_Core_V1_Aes_Free
    (_bufs : cy_stc_crypto_aes_buffers_t) : cy_stc_crypto_aes_buffers_t :=
  { key    := List.replicate CY_CRYPTO_AES_256_KEY_SIZE 0
    keyInv := List.replicate CY_CRYPTO_AES_256_KEY_SIZE 0
    block0 := List.replicate CY_CRYPTO_AES_BLOCK_SIZE 0
    block1 := List.replicate CY_CRYPTO_AES_BLOCK_SIZE 0
    block2 := List.replicate CY_CRYPTO_AES_BLOCK_SIZE 0
    iv     := List.replicate CY_CRYPTO_AES_BLOCK_SIZE 0 }

/-- Result of a mode entry point (`Ecb`, `Cbc`, `Cfb`): the status, the
caller's IV buffer after the call, the caller's destination buffer after the
call, and the scratch region after the call.  (`Ecb` has no IV; its result
reuses the structure with `ivOut` unused.) -/
structure ModeResult where
  status  : cy_en_crypto_status_t
  ivOut   : List Nat
  dstOut  : List Nat
  bufsOut : cy_stc_crypto_aes_buffers_t
deriving DecidableEq

/-- Write of a transform output into a 16-byte scratch slot: the accelerator
writes exactly one block, so the slot receives the first 16 bytes of the
transform's value (under the spec's accelerator contract the value is exactly
16 bytes and the truncation is the identity). -/
def slot16 (blk : List Nat) : List Nat := blk.take CY_CRYPTO_AES_BLOCK_SIZE

/-- `Cy_Crypto_Core_V1_Aes_Ecb`: copies one 16-byte block from `src` into
`block0`, runs the block transform into `block1`, copies `block1` to `dst`,
returns `CY_CRYPTO_SUCCESS`.  There is no size argument and no error path. -/
def Cy_Crypto_Core_V1_Aes_Ecb (E D : List Nat → List Nat)
    (dirMode : cy_en_crypto_dir_mode_t) (dst src : List Nat)
    (bufs : cy_stc_crypto_aes_buffers_t) : ModeResult :=
  let b0 := src.take CY_CRYPTO_AES_BLOCK_SIZE
  let b1 := slot16 (Cy_Crypto_Core_V1_Aes_ProcessBlock E D dirMode b0)
  { status := CY_CRYPTO_SUCCESS
    ivOut := []
    dstOut := b1 ++ dst.drop CY_CRYPTO_AES_BLOCK_SIZE
    bufsOut := { bufs with block0 := b0, block1 := b1 } }

/-- One loop family of `Cy_Crypto_Core_V1_Aes_Cbc`, decrypt direction.  The
C loop runs `while (size > 0) { ...; size -= 16 }` with `size` a multiple of
16, i.e. `srcSize / 16` iterations, consuming `src` block by block.  Per
iteration (`T` is the transform selected by `dirMode`, here the inverse one):
`block0 ← src` (16 bytes); `block1 ← T(block0)`;
`block1 ← iv XOR block1` (the `iv` slot is `tempBuff`, the rolling chain);
`tempBuff ← block0` (the ciphertext becomes the next chain value);
`dst ← block1`.  Returns the final scratch state and the emitted bytes. -/
def cbcDecLoop (T : List Nat → List Nat) :
    Nat → cy_stc_crypto_aes_buffers_t → List Nat →
    cy_stc_crypto_aes_buffers_t × List Nat
  | 0, bufs, _ => (bufs, [])
  | n + 1, bufs, src =>
      let b0 := src.take CY_CRYPTO_AES_BLOCK_SIZE
      let b1 := xor16 bufs.iv (slot16 (T b0))
      let bufs' := { bufs with block0 := b0, block1 := b1, iv := b0 }
      let r := cbcDecLoop T n bufs' (src.drop CY_CRYPTO_AES_BLOCK_SIZE)
      (r.1, b1 ++ r.2)

/-- One loop family of `Cy_Crypto_Core_V1_Aes_Cbc`, encrypt direction.  Per
iteration: `block0 ← src` (16 bytes); `tempBuff ← block0 XOR tempBuff`;
`block1 ← T(tempBuff)`; `tempBuff ← block1`; `dst ← block1`. -/
def cbcEncLoop (T : List Nat → List Nat) :
    Nat → cy_stc_crypto_aes_buffers_t → List Nat →
    cy_stc_crypto_aes_buffers_t × List Nat
  | 0, bufs, _ => (bufs, [])
  | n + 1, bufs, src =>
      let b0 := src.take CY_CRYPTO_AES_BLOCK_SIZE
      let b1 := slot16 (T (xor16 b0 bufs.iv))
      let bufs' := { bufs with block0 := b0, block1 := b1, iv := b1 }
      let r := cbcEncLoop T n bufs' (src.drop CY_CRYPTO_AES_BLOCK_SIZE)
      (r.1, b1 ++ r.2)

/-- `Cy_Crypto_Core_V1_Aes_Cbc`.  Rejects `srcSize & 15 != 0` with
`CY_CRYPTO_SIZE_NOT_X16` before touching any memory; otherwise copies the
caller's IV into the `iv` slot (`tempBuff`) and runs the per-direction loop.
The caller's `iv` buffer is only ever read. -/
def Cy_Crypto_Core_V1_Aes_Cbc (E D : List Nat → List Nat)
    (dirMode : cy_en_crypto_dir_mode_t) (srcSize : Nat)
    (ivPtr dst src : List Nat)
    (bufs : cy_stc_crypto_aes_buffers_t) : ModeResult :=
  if srcSize &&& (CY_CRYPTO_AES_BLOCK_SIZE - 1) = 0 then
    let bufs0 := { bufs with iv := ivPtr.take CY_CRYPTO_AES_BLOCK_SIZE }
    if dirMode = CY_CRYPTO_DECRYPT then
      let r := cbcDecLoop (Cy_Crypto_Core_V1_Aes_ProcessBlock E D dirMode)
        (srcSize / CY_CRYPTO_AES_BLOCK_SIZE) bufs0 src
      { status := CY_CRYPTO_SUCCESS, ivOut := ivPtr
        dstOut := r.2 ++ dst.drop srcSize, bufsOut := r.1 }
    else
      let r := cbcEncLoop (Cy_Crypto_Core_V1_Aes_ProcessBlock E D dirMode)
        (srcSize / CY_CRYPTO_AES_BLOCK_SIZE) bufs0 src
      { status := CY_CRYPTO_SUCCESS, ivOut := ivPtr
        dstOut := r.2 ++ dst.drop srcSize, bufsOut := r.1 }
  else
    { status := CY_CRYPTO_SIZE_NOT_X16, ivOut := ivPtr
      dstOut := dst, bufsOut := bufs }

/-- Loop of `Cy_Crypto_Core_V1_Aes_Cfb`, encrypt direction.  `encBuff`
aliases `dstBuff` (= `block1`).  Per iteration: `block1 ← E(block1)` (CFB
always runs the forward transform); `block0 ← src` (16 bytes);
`block1 ← block0 XOR block1`; `dst ← block1` — so the just-emitted
ciphertext block sitting in `block1` is the next encode-buffer value. -/
def cfbEncLoop (E : List Nat → List Nat) :
    Nat → cy_stc_crypto_aes_buffers_t → List Nat →
    cy_stc_crypto_aes_buffers_t × List Nat
  | 0, bufs, _ => (bufs, [])
  | n + 1, bufs, src =>
      let ks := slot16 (E bufs.block1)
      let b0 := src.take CY_CRYPTO_AES_BLOCK_SIZE
      let c := xor16 b0 ks
      let bufs' := { bufs with block0 := b0, block1 := c }
      let r := cfbEncLoop E n bufs' (src.drop CY_CRYPTO_AES_BLOCK_SIZE)
      (r.1, c ++ r.2)

/-- Loop of `Cy_Crypto_Core_V1_Aes_Cfb`, decrypt direction.  `encBuff`
aliases `srcBuff` (= `block0`).  Per iteration: `block1 ← E(block0)`;
`block0 ← src` (the ciphertext block, which thereby becomes the next
encode-buffer value); `block1 ← block0 XOR block1`; `dst ← block1`. -/
def cfbDecLoop (E : List Nat → List Nat) :
    Nat → cy_stc_crypto_aes_buffers_t → List Nat →
    cy_stc_crypto_aes_buffers_t × List Nat
  | 0, bufs, _ => (bufs, [])
  | n + 1, bufs, src =>
      let ks := slot16 (E bufs.block0)
      let b0 := src.take CY_CRYPTO_AES_BLOCK_SIZE
      let p := xor16 b0 ks
      let bufs' := { bufs with block0 := b0, block1 := p }
      let r := cfbDecLoop E n bufs' (src.drop CY_CRYPTO_AES_BLOCK_SIZE)
      (r.1, p ++ r.2)

/-- `Cy_Crypto_Core_V1_Aes_Cfb`.  Same alignment gate as CBC.  Seeds the
encode buffer (`block1` when encrypting, `block0` when decrypting) from the
caller's IV, then runs the loop; only the forward transform `E` is ever
used, so the function takes no inverse transform.  The caller's `iv` buffer
is only ever read. -/
def Cy_Crypto_Core_V1_Aes_Cfb (E : List Nat → List Nat)
    (dirMode : cy_en_crypto_dir_mode_t) (srcSize : Nat)
    (ivPtr dst src : List Nat)
    (bufs : cy_stc_crypto_aes_buffers_t) : ModeResult :=
  if srcSize &&& (CY_CRYPTO_AES_BLOCK_SIZE - 1) = 0 then
    if dirMode = CY_CRYPTO_DECRYPT then
      let bufs0 := { bufs with block0 := ivPtr.take CY_CRYPTO_AES_BLOCK_SIZE }
      let r := cfbDecLoop E (srcSize / CY_CRYPTO_AES_BLOCK_SIZE) bufs0 src
      { status := CY_CRYPTO_SUCCESS, ivOut := ivPtr
        dstOut := r.2 ++ dst.drop srcSize, bufsOut := r.1 }
    else
      let bufs0 := { bufs with block1 := ivPtr.take CY_CRYPTO_AES_BLOCK_SIZE }
      let r := cfbEncLoop E (srcSize / CY_CRYPTO_AES_BLOCK_SIZE) bufs0 src
      { status := CY_CRYPTO_SUCCESS, ivOut := ivPtr
        dstOut := r.2 ++ dst.drop srcSize, bufsOut := r.1 }
  else
    { status := CY_CRYPTO_SIZE_NOT_X16, ivOut := ivPtr
      dstOut := dst, bufsOut := bufs }

/-- Big-endian bytes of the low 64 bits of a natural number
(the store `*(uint64_t*)(nonceCounter + CY_CRYPTO_AES_CTR_CNT_POS) =
CY_SWAP_ENDIAN64(counter)` on the little-endian Cortex-M host).  Modelled
from the spec: `CY_SWAP_ENDIAN64` lives in `cy_syslib.h` outside the sample;
the spec fixes big-endian semantics for the low 64 counter bits. -/
def be64 (n : Nat) : List Nat :=
  [n / 2 ^ 56 % 256, n / 2 ^ 48 % 256, n / 2 ^ 40 % 256, n / 2 ^ 32 % 256,
   n / 2 ^ 24 % 256, n / 2 ^ 16 % 256, n / 2 ^ 8 % 256, n % 256]

/-- Big-endian value of a byte list (the load `CY_SWAP_ENDIAN64(
*(uint64_t*)(nonceCounter + CY_CRYPTO_AES_CTR_CNT_POS))`). -/
def be64ToNat (l : List Nat) : Nat :=
  l.foldl (fun acc b => acc * 256 + b) 0

/-- Loop of `Cy_Crypto_Core_V1_Aes_Ctr`, `for (i = 0; i < cnt; i++)`.
`counter` is the hoisted `uint64_t counter` variable.  Per iteration:
`block0 ← src` (16 bytes); `block2 ← E(iv)` (the `iv` slot is
`nonceCounter`; CTR always runs the forward transform); `counter++`
(64-bit wrap-around) and the swapped counter is stored back into bytes
8..15 of the `iv` slot; `block1 ← block0 XOR block2`; `dst ← block1`. -/
def ctrLoop (E : List Nat → List Nat) :
    Nat → Nat → cy_stc_crypto_aes_buffers_t → List Nat →
    cy_stc_crypto_aes_buffers_t × List Nat
  | 0, _, bufs, _ => (bufs, [])
  | n + 1, counter, bufs, src =>
      let b0 := src.take CY_CRYPTO_AES_BLOCK_SIZE
      let stream := slot16 (E bufs.iv)
      let counter' := (counter + 1) % 2 ^ 64
      let iv' := bufs.iv.take 8 ++ be64 counter'
      let b1 := xor16 b0 stream
      let bufs' := { bufs with block0 := b0, block1 := b1, block2 := stream
                               iv := iv' }
      let r := ctrLoop E n counter' bufs' (src.drop CY_CRYPTO_AES_BLOCK_SIZE)
      (r.1, b1 ++ r.2)

/-- Result of `Cy_Crypto_Core_V1_Aes_Ctr`: the status, the value stored to
`*srcOffset`, and the caller's `iv`, `streamBlock` and `dst` buffers and the
scratch region after the call. -/
structure CtrResult where
  status         : cy_en_crypto_status_t
  srcOffsetOut   : Nat
  ivOut          : List Nat
  streamBlockOut : List Nat
  dstOut         : List Nat
  bufsOut        : cy_stc_crypto_aes_buffers_t
deriving DecidableEq

/-- `Cy_Crypto_Core_V1_Aes_Ctr`.  Copies the caller's 16-byte `iv` into the
`iv` slot (`nonceCounter`), reads the big-endian low-64-bit counter from
bytes 8..15 of that slot, processes `srcSize / 16` full blocks, copies the
slot back into the caller's `iv`, stores `srcSize % 16` to `*srcOffset`, and
returns `CY_CRYPTO_SUCCESS`.  The `srcOffset` input value and the
`streamBlock` buffer are never read, and `streamBlock` is never written. -/
def Cy_Crypto_Core_V1_Aes_Ctr (E : List Nat → List Nat) (srcSize : Nat)
    (_srcOffset : Nat) (ivPtr streamBlock dst src : List Nat)
    (bufs : cy_stc_crypto_aes_buffers_t) : CtrResult :=
  let bufs0 := { bufs with iv := ivPtr.take CY_CRYPTO_AES_BLOCK_SIZE }
  let counter := be64ToNat (bufs0.iv.drop 8)
  let cnt := srcSize / CY_CRYPTO_AES_BLOCK_SIZE
  let r := ctrLoop E cnt counter bufs0 src
  { status := CY_CRYPTO_SUCCESS
    srcOffsetOut := srcSize % CY_CRYPTO_AES_BLOCK_SIZE
    ivOut := r.1.iv.take CY_CRYPTO_AES_BLOCK_SIZE ++
      ivPtr.drop CY_CRYPTO_AES_BLOCK_SIZE
    streamBlockOut := streamBlock
    dstOut := r.2 ++ dst.drop (CY_CRYPTO_AES_BLOCK_SIZE * cnt)
    bufsOut := r.1 }

/-! Helper definitions and lemmas shared by several claims. -/

/-- An all-zero scratch region, used as concrete input by witnesses and
counterexamples. -/
def zeroBuffers : cy_stc_crypto_aes_buffers_t :=
  { key    := List.replicate CY_CRYPTO_AES_256_KEY_SIZE 0
    keyInv := List.replicate CY_CRYPTO_AES_256_KEY_SIZE 0
    block0 := List.replicate CY_CRYPTO_AES_BLOCK_SIZE 0
    block1 := List.replicate CY_CRYPTO_AES_BLOCK_SIZE 0
    block2 := List.replicate CY_CRYPTO_AES_BLOCK_SIZE 0
    iv     := List.replicate CY_CRYPTO_AES_BLOCK_SIZE 0 }

/-- The C alignment test `size & (CY_CRYPTO_AES_BLOCK_SIZE - 1u)` computes
`size mod 16`. -/
lemma and_block_mask_eq_mod (n : Nat) :
    n &&& (CY_CRYPTO_AES_BLOCK_SIZE - 1) = n % 16 := by
  have h := Nat.and_pow_two_sub_one_eq_mod n 4
  norm_num at h
  simpa [CY_CRYPTO_AES_BLOCK_SIZE] using h

lemma length_xor16 (a b : List Nat) :
    (xor16 a b).length = min a.length b.length := by
  simp [xor16]

lemma slot16_of_length {l : List Nat} (h : l.length = 16) : slot16 l = l := by
  unfold slot16 CY_CRYPTO_AES_BLOCK_SIZE
  exact List.take_of_length_le (by omega)

/-- XOR-ing a chain value with an already chain-XOR-ed block recovers the
block (the CBC decrypt combination step). -/
lemma xor16_cancel_chain (c b : List Nat) (h : c.length = b.length) :
    xor16 c (xor16 b c) = b := by
  induction c generalizing b with
  | nil =>
    cases b with
    | nil => rfl
    | cons y ys => simp at h
  | cons x xs ih =>
    cases b with
    | nil => simp at h
    | cons y ys =>
      have h' : xs.length = ys.length := by simpa using h
      simp only [xor16, List.zipWith_cons_cons, List.cons.injEq] at ih ⊢
      refine ⟨?_, ih ys h'⟩
      show x ^^^ (y ^^^ x) = y
      rw [Nat.xor_comm y x, Nat.xor_cancel_left]

/-- XOR-ing a keystream into a block twice recovers the block (the CFB/CTR
combination step). -/
lemma xor16_cancel_keystream (b k : List Nat) (h : b.length = k.length) :
    xor16 (xor16 b k) k = b := by
  induction b generalizing k with
  | nil =>
    cases k with
    | nil => rfl
    | cons y ys => simp at h
  | cons x xs ih =>
    cases k with
    | nil => simp at h
    | cons y ys =>
      have h' : xs.length = ys.length := by simpa using h
      simp only [xor16, List.zipWith_cons_cons, List.cons.injEq] at ih ⊢
      refine ⟨?_, ih ys h'⟩
      show (x ^^^ y) ^^^ y = x
      exact Nat.xor_cancel_right y x

/-- Bytes emitted to `dst` by the CBC encrypt loop, as a function of the
rolling chain value only (`cbcEncLoop` threads the chain through the `iv`
scratch slot; nothing else in the scratch region influences the output). -/
def cbcEncOut (T : List Nat → List Nat) : Nat → List Nat → List Nat → List Nat
  | 0, _, _ => []
  | n + 1, chain, src =>
      let y := slot16 (T (xor16 (src.take 16) chain))
      y ++ cbcEncOut T n y (src.drop 16)

/-- Bytes emitted to `dst` by the CBC decrypt loop, as a function of the
rolling chain value only. -/
def cbcDecOut (T : List Nat → List Nat) : Nat → List Nat → List Nat → List Nat
  | 0, _, _ => []
  | n + 1, chain, src =>
      let b0 := src.take 16
      xor16 chain (slot16 (T b0)) ++ cbcDecOut T n b0 (src.drop 16)

lemma cbcEncLoop_out (T : List Nat → List Nat) :
    ∀ (n : Nat) (bufs : cy_stc_crypto_aes_buffers_t) (src : List Nat),
      (cbcEncLoop T n bufs src).2 = cbcEncOut T n bufs.iv src := by
  intro n
  induction n with
  | zero => intro bufs src; rfl
  | succ n ih =>
    intro bufs src
    simp only [cbcEncLoop, cbcEncOut, CY_CRYPTO_AES_BLOCK_SIZE, ih]

lemma cbcDecLoop_out (T : List Nat → List Nat) :
    ∀ (n : Nat) (bufs : cy_stc_crypto_aes_buffers_t) (src : List Nat),
      (cbcDecLoop T n bufs src).2 = cbcDecOut T n bufs.iv src := by
  intro n
  induction n with
  | zero => intro bufs src; rfl
  | succ n ih =>
    intro bufs src
    simp only [cbcDecLoop, cbcDecOut, CY_CRYPTO_AES_BLOCK_SIZE, ih]

/-- CBC round trip at the level of the emitted byte streams: decrypting the
encrypt-loop output (with anything appended after it) under the same initial
chain value recovers the plaintext. -/
lemma cbcOut_roundtrip (Tenc Tdec : List Nat → List Nat)
    (hinv : ∀ b, Tdec (Tenc b) = b)
    (hlen : ∀ b, b.length = 16 → (Tenc b).length = 16) :
    ∀ (n : Nat) (src extra chain : List Nat),
      src.length = 16 * n → chain.length = 16 →
      cbcDecOut Tdec n chain (cbcEncOut Tenc n chain src ++ extra) = src := by
  intro n
  induction n with
  | zero =>
    intro src extra chain hsrc _
    have hnil : src = [] := List.length_eq_zero.mp (by omega)
    simp [cbcDecOut, hnil]
  | succ n ih =>
    intro src extra chain hsrc hchain
    have hb0 : (src.take 16).length = 16 := by
      rw [List.length_take]; omega
    have hx : (xor16 (src.take 16) chain).length = 16 := by
      rw [length_xor16]; omega
    have hTe : (Tenc (xor16 (src.take 16) chain)).length = 16 := hlen _ hx
    have hdrop : (src.drop 16).length = 16 * n := by
      rw [List.length_drop]; omega
    simp only [cbcEncOut, cbcDecOut, slot16_of_length hTe, List.append_assoc,
      List.take_left' hTe, List.drop_left' hTe, hinv, slot16_of_length hx,
      xor16_cancel_chain chain (src.take 16) (by omega),
      ih (src.drop 16) extra (Tenc (xor16 (src.take 16) chain)) hdrop hTe]
    exact List.take_append_drop 16 src

/-- Bytes emitted to `dst` by the CFB encrypt loop as a function of the
encode-buffer value (which, on the encrypt side, is the previous ciphertext
block living in `block1`). -/
def cfbEncOut (E : List Nat → List Nat) : Nat → List Nat → List Nat → List Nat
  | 0, _, _ => []
  | n + 1, enc, src =>
      let c := xor16 (src.take 16) (slot16 (E enc))
      c ++ cfbEncOut E n c (src.drop 16)

/-- Bytes emitted to `dst` by the CFB decrypt loop as a function of the
encode-buffer value (which, on the decrypt side, is the previous ciphertext
block living in `block0`). -/
def cfbDecOut (E : List Nat → List Nat) : Nat → List Nat → List Nat → List Nat
  | 0, _, _ => []
  | n + 1, enc, src =>
      let b0 := src.take 16
      xor16 b0 (slot16 (E enc)) ++ cfbDecOut E n b0 (src.drop 16)

lemma cfbEncLoop_out (E : List Nat → List Nat) :
    ∀ (n : Nat) (bufs : cy_stc_crypto_aes_buffers_t) (src : List Nat),
      (cfbEncLoop E n bufs src).2 = cfbEncOut E n bufs.block1 src := by
  intro n
  induction n with
  | zero => intro bufs src; rfl
  | succ n ih =>
    intro bufs src
    simp only [cfbEncLoop, cfbEncOut, CY_CRYPTO_AES_BLOCK_SIZE, ih]

lemma cfbDecLoop_out (E : List Nat → List Nat) :
    ∀ (n : Nat) (bufs : cy_stc_crypto_aes_buffers_t) (src : List Nat),
      (cfbDecLoop E n bufs src).2 = cfbDecOut E n bufs.block0 src := by
  intro n
  induction n with
  | zero => intro bufs src; rfl
  | succ n ih =>
    intro bufs src
    simp only [cfbDecLoop, cfbDecOut, CY_CRYPTO_AES_BLOCK_SIZE, ih]

/-- CFB round trip at the level of the emitted byte streams: only the
forward transform is involved, and in both directions the ciphertext block
becomes the next encode-buffer value. -/
lemma cfbOut_roundtrip (E : List Nat → List Nat)
    (hlen : ∀ b, b.length = 16 → (E b).length = 16) :
    ∀ (n : Nat) (src extra enc : List Nat),
      src.length = 16 * n → enc.length = 16 →
      cfbDecOut E n enc (cfbEncOut E n enc src ++ extra) = src := by
  intro n
  induction n with
  | zero =>
    intro src extra enc hsrc _
    have hnil : src = [] := List.length_eq_zero.mp (by omega)
    simp [cfbDecOut, hnil]
  | succ n ih =>
    intro src extra enc hsrc henc
    have hb0 : (src.take 16).length = 16 := by
      rw [List.length_take]; omega
    have hks : (E enc).length = 16 := hlen enc henc
    have hc : (xor16 (src.take 16) (slot16 (E enc))).length = 16 := by
      rw [length_xor16, slot16_of_length hks]; omega
    have hdrop : (src.drop 16).length = 16 * n := by
      rw [List.length_drop]; omega
    simp only [cfbEncOut, cfbDecOut, List.append_assoc, List.take_left' hc,
      List.drop_left' hc,
      ih (src.drop 16) extra (xor16 (src.take 16) (slot16 (E enc))) hdrop hc]
    rw [xor16_cancel_keystream (src.take 16) (slot16 (E enc))
        (by rw [slot16_of_length hks]; omega)]
    exact List.take_append_drop 16 src

lemma length_be64 (n : Nat) : (be64 n).length = 8 := rfl

lemma be64_mod (n : Nat) : be64 (n % 2 ^ 64) = be64 n := by
  simp only [be64, List.cons.injEq, and_true]
  norm_num
  omega

lemma be64_congr {a b : Nat} (h : a % 2 ^ 64 = b % 2 ^ 64) :
    be64 a = be64 b := by
  rw [← be64_mod a, ← be64_mod b, h]

lemma be64ToNat_be64 (n : Nat) : be64ToNat (be64 n) = n % 2 ^ 64 := by
  simp only [be64, be64ToNat, List.foldl]
  norm_num
  omega

/-- A byte list of length 8 is an explicit 8-tuple of bytes. -/
lemma exists_eight (l : List Nat) (h8 : l.length = 8) :
    ∃ a b c d e f g h, l = [a, b, c, d, e, f, g, h] := by
  rcases l with _ | ⟨a, l⟩
  · simp at h8
  rcases l with _ | ⟨b, l⟩
  · simp at h8
  rcases l with _ | ⟨c, l⟩
  · simp at h8
  rcases l with _ | ⟨d, l⟩
  · simp at h8
  rcases l with _ | ⟨e, l⟩
  · simp at h8
  rcases l with _ | ⟨f, l⟩
  · simp at h8
  rcases l with _ | ⟨g, l⟩
  · simp at h8
  rcases l with _ | ⟨h, l⟩
  · simp at h8
  rcases l with _ | ⟨x, l⟩
  · exact ⟨a, b, c, d, e, f, g, h, rfl⟩
  · simp at h8

lemma be64_be64ToNat {l : List Nat} (h8 : l.length = 8)
    (hb : ∀ x ∈ l, x < 256) : be64 (be64ToNat l) = l := by
  obtain ⟨a, b, c, d, e, f, g, h, rfl⟩ := exists_eight l h8
  simp only [List.mem_cons, forall_eq_or_imp, List.not_mem_nil,
    forall_eq, imp_true_iff, and_true] at hb
  obtain ⟨h1, h2, h3, h4, h5, h6, h7, hh⟩ := hb
  simp only [be64, be64ToNat, List.foldl, List.cons.injEq, and_true]
  norm_num
  omega

lemma be64ToNat_lt {l : List Nat} (h8 : l.length = 8)
    (hb : ∀ x ∈ l, x < 256) : be64ToNat l < 2 ^ 64 := by
  obtain ⟨a, b, c, d, e, f, g, h, rfl⟩ := exists_eight l h8
  simp only [List.mem_cons, forall_eq_or_imp, List.not_mem_nil,
    forall_eq, imp_true_iff, and_true] at hb
  obtain ⟨h1, h2, h3, h4, h5, h6, h7, hh⟩ := hb
  simp only [be64ToNat, List.foldl]
  norm_num
  omega

/-- Invariant of the CTR loop: the nonce half (bytes 0..7) of the `iv` slot
never changes and its counter half (bytes 8..15) holds the big-endian
initial counter plus the number of blocks processed (the 64-bit wrap-around
is absorbed by `be64`). -/
lemma ctrLoop_iv (E : List Nat → List Nat) :
    ∀ (n c : Nat) (bufs : cy_stc_crypto_aes_buffers_t) (src : List Nat),
      bufs.iv.length = 16 → bufs.iv.drop 8 = be64 c →
      (ctrLoop E n c bufs src).1.iv = bufs.iv.take 8 ++ be64 (c + n) := by
  intro n
  induction n with
  | zero =>
    intro c bufs src _ hdrop
    rw [ctrLoop, Nat.add_zero, ← hdrop, List.take_append_drop]
  | succ n ih =>
    intro c bufs src h16 hdrop
    have htake8 : (bufs.iv.take 8).length = 8 := by
      rw [List.length_take]; omega
    simp only [ctrLoop]
    rw [ih ((c + 1) % 2 ^ 64) _ _
        (by simp [List.length_take, length_be64]; omega)
        (List.drop_left' htake8)]
    rw [List.take_left' htake8]
    exact congrArg _ (be64_congr (by omega))

/-- Bytes emitted to `dst` by the CTR loop as a function of the hoisted
counter variable and the `iv` (nonce+counter) slot value. -/
def ctrOut (E : List Nat → List Nat) :
    Nat → Nat → List Nat → List Nat → List Nat
  | 0, _, _, _ => []
  | n + 1, c, iv, src =>
      xor16 (src.take 16) (slot16 (E iv)) ++
        ctrOut E n ((c + 1) % 2 ^ 64)
          (iv.take 8 ++ be64 ((c + 1) % 2 ^ 64)) (src.drop 16)

lemma ctrLoop_out (E : List Nat → List Nat) :
    ∀ (n c : Nat) (bufs : cy_stc_crypto_aes_buffers_t) (src : List Nat),
      (ctrLoop E n c bufs src).2 = ctrOut E n c bufs.iv src := by
  intro n
  induction n with
  | zero => intro c bufs src; rfl
  | succ n ih =>
    intro c bufs src
    simp only [ctrLoop, ctrOut, CY_CRYPTO_AES_BLOCK_SIZE, ih]

/-- Splitting a CTR keystream: processing `m + n` blocks in one run emits
the same bytes as processing `m` blocks and then `n` more blocks starting
from the written-back counter state. -/
lemma ctrOut_split (E : List Nat → List Nat) :
    ∀ (m n c : Nat) (iv src : List Nat),
      iv.length = 16 → iv.drop 8 = be64 c → c < 2 ^ 64 →
      ctrOut E (m + n) c iv src =
        ctrOut E m c iv src ++
          ctrOut E n ((c + m) % 2 ^ 64) (iv.take 8 ++ be64 (c + m))
            (src.drop (16 * m)) := by
  intro m
  induction m with
  | zero =>
    intro n c iv src _ hdrop hc
    rw [Nat.zero_add, Nat.add_zero, Nat.mod_eq_of_lt hc, ← hdrop,
      List.take_append_drop, ctrOut, List.nil_append, Nat.mul_zero,
      List.drop_zero]
  | succ m ih =>
    intro n c iv src h16 hdrop hc
    have htake8 : (iv.take 8).length = 8 := by
      rw [List.length_take]; omega
    have heq : m + 1 + n = (m + n) + 1 := by omega
    rw [heq]
    simp only [ctrOut]
    rw [ih n ((c + 1) % 2 ^ 64) (iv.take 8 ++ be64 ((c + 1) % 2 ^ 64))
        (src.drop 16)
        (by simp [List.length_take, length_be64]; omega)
        (List.drop_left' htake8)
        (Nat.mod_lt _ (by norm_num))]
    rw [List.append_assoc, List.take_left' htake8, List.drop_drop]
    have hc1 : ((c + 1) % 2 ^ 64 + m) % 2 ^ 64 = (c + (m + 1)) % 2 ^ 64 := by
      omega
    rw [hc1, be64_congr (show ((c + 1) % 2 ^ 64 + m) % 2 ^ 64 =
        (c + (m + 1)) % 2 ^ 64 by omega)]
    have hdd : 16 + 16 * m = 16 * (m + 1) := by omega
    rw [hdd]

/-- Characterization of one whole `Cy_Crypto_Core_V1_Aes_Ctr` call on a
16-byte, byte-valued caller IV: the status, the written-back IV, the
emitted ciphertext and the stored offset. -/
lemma ctr_entry (E : List Nat → List Nat) (srcSize so : Nat)
    (ivPtr sb dst src : List Nat) (bufs : cy_stc_crypto_aes_buffers_t)
    (hiv : ivPtr.length = 16) (hb : ∀ x ∈ ivPtr, x < 256) :
    (Cy_Crypto_Core_V1_Aes_Ctr E srcSize so ivPtr sb dst src bufs).status =
        CY_CRYPTO_SUCCESS ∧
      (Cy_Crypto_Core_V1_Aes_Ctr E srcSize so ivPtr sb dst src bufs).ivOut =
        ivPtr.take 8 ++ be64 (be64ToNat (ivPtr.drop 8) + srcSize / 16) ∧
      (Cy_Crypto_Core_V1_Aes_Ctr E srcSize so ivPtr sb dst src bufs).dstOut =
        ctrOut E (srcSize / 16) (be64ToNat (ivPtr.drop 8)) ivPtr src ++
          dst.drop (16 * (srcSize / 16)) ∧
      (Cy_Crypto_Core_V1_Aes_Ctr E srcSize so ivPtr sb dst src
          bufs).srcOffsetOut = srcSize % 16 := by
  have hivt : ivPtr.take 16 = ivPtr := by
    rw [← hiv, List.take_length]
  have hd8len : (ivPtr.drop 8).length = 8 := by
    rw [List.length_drop]; omega
  have hbd : ∀ x ∈ ivPtr.drop 8, x < 256 :=
    fun x hx => hb x (List.drop_subset _ _ hx)
  have hdec : ivPtr.drop 8 = be64 (be64ToNat (ivPtr.drop 8)) :=
    (be64_be64ToNat hd8len hbd).symm
  have htake8 : (ivPtr.take 8).length = 8 := by
    rw [List.length_take]; omega
  have hdrop16 : ivPtr.drop 16 = [] := by
    rw [← hiv, List.drop_length]
  refine ⟨rfl, ?_, ?_, rfl⟩
  · simp only [Cy_Crypto_Core_V1_Aes_Ctr, CY_CRYPTO_AES_BLOCK_SIZE, hivt]
    rw [ctrLoop_iv E (srcSize / 16) (be64ToNat (ivPtr.drop 8)) _ src hiv
        hdec]
    rw [List.take_of_length_le
        (by simp only [List.length_append, length_be64]; omega), hdrop16,
      List.append_nil]
  · simp only [Cy_Crypto_Core_V1_Aes_Ctr, CY_CRYPTO_AES_BLOCK_SIZE, hivt,
      ctrLoop_out]

lemma be64_lt (n : Nat) : ∀ x ∈ be64 n, x < 256 := by
  simp only [be64, List.mem_cons, List.not_mem_nil, or_false]
  rintro x (rfl | rfl | rfl | rfl | rfl | rfl | rfl | rfl) <;>
    exact Nat.mod_lt _ (by norm_num)

/-- A single CTR loop iteration emits one keystream-XOR-ed block; the
counter value plays no role in the block itself. -/
lemma ctrOut_one (E : List Nat → List Nat) (c : Nat) (iv s : List Nat) :
    ctrOut E 1 c iv s = xor16 (s.take 16) (slot16 (E iv)) := by
  rw [show (1 : Nat) = 0 + 1 from rfl]
  simp only [ctrOut, List.append_nil]

lemma length_take8_be64 {ivPtr : List Nat} (hiv : ivPtr.length = 16)
    (m : Nat) : (ivPtr.take 8 ++ be64 m).length = 16 := by
  rw [List.length_append, List.length_take, length_be64]; omega

lemma mem_take8_be64_lt {ivPtr : List Nat} (hb : ∀ x ∈ ivPtr, x < 256)
    (m : Nat) : ∀ x ∈ ivPtr.take 8 ++ be64 m, x < 256 := by
  intro x hx
  rcases List.mem_append.mp hx with h | h
  · exact hb x (List.take_subset _ _ h)
  · exact be64_lt m x h

/-- Three sequential 16-byte CTR calls that pass the written-back counter
(`ivOut`) and reported offset (`srcOffsetOut`) of each call into the next
one, exactly as the spec's resumption contract describes; returns the three
call results. -/
def ctrThree (E : List Nat → List Nat) (so1 : Nat)
    (ivPtr sb1 sb2 sb3 d1 d2 d3 p : List Nat)
    (bufs : cy_stc_crypto_aes_buffers_t) :
    CtrResult × CtrResult × CtrResult :=
  let r1 := Cy_Crypto_Core_V1_Aes_Ctr E 16 so1 ivPtr sb1 d1 (p.take 16) bufs
  let r2 := Cy_Crypto_Core_V1_Aes_Ctr E 16 r1.srcOffsetOut r1.ivOut sb2 d2
    ((p.drop 16).take 16) r1.bufsOut
  let r3 := Cy_Crypto_Core_V1_Aes_Ctr E 16 r2.srcOffsetOut r2.ivOut sb3 d3
    (p.drop 32) r2.bufsOut
  (r1, r2, r3)

/-! Claim theorems. -/

/-- C1, counterexample.  The claim says a call to init with a
`keyLengthClass` outside the three supported widths (numeric values 0, 1, 2
of `cy_en_crypto_aes_key_length_t`) fails with `InvalidKeyLength`
(`CY_CRYPTO_BAD_PARAMS`).  But `Cy_Crypto_Core_V1_Aes_Init` has a single
return path, `return (CY_CRYPTO_SUCCESS)`, and never inspects `keyLength`:
here the concrete out-of-range class 7 still yields `CY_CRYPTO_SUCCESS`. -/
theorem C1_init_rejects_counterexample :
    (Cy_Crypto_Core_V1_Aes_Init (fun k => k) (List.replicate 32 1) 7
      zeroBuffers).status ≠ CY_CRYPTO_BAD_PARAMS := by
  decide

/-- C1, amended.  `Cy_Crypto_Core_V1_Aes_Init` performs no validation of
`keyLengthClass` at all: for every key, every key-length class (supported or
not) and every prior scratch state it returns `CY_CRYPTO_SUCCESS` and
records the given class in the context. -/
theorem C1_init_never_fails (invKeySched : List Nat → List Nat)
    (key : List Nat) (keyLength : Nat) (bufs : cy_stc_crypto_aes_buffers_t) :
    (Cy_Crypto_Core_V1_Aes_Init invKeySched key keyLength bufs).status =
        CY_CRYPTO_SUCCESS ∧
      (Cy_Crypto_Core_V1_Aes_Init invKeySched key keyLength bufs).keyLengthOut =
        keyLength :=
  ⟨rfl, rfl⟩

/-- C7, counterexample.  The claim says init with the 128-bit class copies
exactly 16 key bytes, so the key slot would become the first 16 caller bytes
followed by the untouched (here all-zero) tail of the slot.  The code copies
`CY_CRYPTO_AES_256_KEY_SIZE` = 32 bytes unconditionally, so with caller key
bytes 0..31 the slot differs from the claim's prediction. -/
theorem C7_init_copy_counterexample :
    (Cy_Crypto_Core_V1_Aes_Init (fun k => k) (List.range 32) 0
        zeroBuffers).bufsOut.key ≠
      (List.range 32).take 16 ++ List.replicate 16 0 := by
  decide

/-- C7, amended.  For every key-length class, init copies 32 bytes
(`CY_CRYPTO_AES_256_KEY_SIZE`) from the caller's key buffer into the key
slot — not the 16/24/32 selected by the class — and then populates the
inverse-key slot by applying the key-schedule derivation primitive to the
key slot. -/
theorem C7_init_copies_32_and_derives (invKeySched : List Nat → List Nat)
    (key : List Nat) (keyLength : Nat) (bufs : cy_stc_crypto_aes_buffers_t) :
    (Cy_Crypto_Core_V1_Aes_Init invKeySched key keyLength bufs).bufsOut.key =
        key.take 32 ∧
      (Cy_Crypto_Core_V1_Aes_Init invKeySched key keyLength
          bufs).bufsOut.keyInv = invKeySched (key.take 32) :=
  ⟨rfl, rfl⟩

/-- C8.  After `Cy_Crypto_Core_V1_Aes_Free` every byte of the scratch region
(key slot, inverse-key slot, the three working blocks and the IV/counter
slot) is zero — each slot equals the all-zero list of its size — and a
second call to free leaves the region in the same all-zero state. -/
theorem C8_free_wipes_scratch (bufs : cy_stc_crypto_aes_buffers_t) :
    (Cy_Crypto_Core_V1_Aes_Free bufs).key = List.replicate 32 0 ∧
      (Cy_Crypto_Core_V1_Aes_Free bufs).keyInv = List.replicate 32 0 ∧
      (Cy_Crypto_Core_V1_Aes_Free bufs).block0 = List.replicate 16 0 ∧
      (Cy_Crypto_Core_V1_Aes_Free bufs).block1 = List.replicate 16 0 ∧
      (Cy_Crypto_Core_V1_Aes_Free bufs).block2 = List.replicate 16 0 ∧
      (Cy_Crypto_Core_V1_Aes_Free bufs).iv = List.replicate 16 0 ∧
      Cy_Crypto_Core_V1_Aes_Free (Cy_Crypto_Core_V1_Aes_Free bufs) =
        Cy_Crypto_Core_V1_Aes_Free bufs :=
  ⟨rfl, rfl, rfl, rfl, rfl, rfl, rfl⟩

/-- C2, counterexample.  The claim extends misaligned-size rejection to
`ecb`, but `Cy_Crypto_Core_V1_Aes_Ecb` takes no `srcSize` at all, has no
error path, and unconditionally processes one block: a concrete call
returns `CY_CRYPTO_SUCCESS` (never `CY_CRYPTO_SIZE_NOT_X16`) and overwrites
the destination buffer. -/
theorem C2_ecb_rejects_counterexample :
    (Cy_Crypto_Core_V1_Aes_Ecb (fun b => b.map fun x => (x + 1) % 256)
          (fun b => b) CY_CRYPTO_ENCRYPT (List.replicate 16 0)
          (List.replicate 16 0) zeroBuffers).status = CY_CRYPTO_SUCCESS ∧
      (Cy_Crypto_Core_V1_Aes_Ecb (fun b => b.map fun x => (x + 1) % 256)
          (fun b => b) CY_CRYPTO_ENCRYPT (List.replicate 16 0)
          (List.replicate 16 0) zeroBuffers).dstOut ≠
        List.replicate 16 0 := by
  constructor
  · rfl
  · decide

/-- C2, amended.  For every `srcSize` that is not a whole multiple of 16,
`cbc` and `cfb` return `CY_CRYPTO_SIZE_NOT_X16` and perform zero work: the
caller's destination, IV and the scratch region are all returned exactly as
given.  `ecb`, by contrast, takes no `srcSize`: it always processes exactly
one 16-byte block and always returns `CY_CRYPTO_SUCCESS`. -/
theorem C2_misaligned_rejected (E D : List Nat → List Nat)
    (dirMode : cy_en_crypto_dir_mode_t) (srcSize : Nat)
    (ivPtr dst src : List Nat) (bufs : cy_stc_crypto_aes_buffers_t)
    (h : srcSize % 16 ≠ 0) :
    Cy_Crypto_Core_V1_Aes_Cbc E D dirMode srcSize ivPtr dst src bufs =
        { status := CY_CRYPTO_SIZE_NOT_X16, ivOut := ivPtr
          dstOut := dst, bufsOut := bufs } ∧
      Cy_Crypto_Core_V1_Aes_Cfb E dirMode srcSize ivPtr dst src bufs =
        { status := CY_CRYPTO_SIZE_NOT_X16, ivOut := ivPtr
          dstOut := dst, bufsOut := bufs } ∧
      (Cy_Crypto_Core_V1_Aes_Ecb E D dirMode dst src bufs).status =
        CY_CRYPTO_SUCCESS := by
  refine ⟨?_, ?_, rfl⟩ <;>
    simp [Cy_Crypto_Core_V1_Aes_Cbc, Cy_Crypto_Core_V1_Aes_Cfb,
      and_block_mask_eq_mod, h]

/-- C2, witness for the amended theorem at the concrete misaligned size 8. -/
theorem C2_misaligned_rejected_witness :
    8 % 16 ≠ 0 ∧
      (Cy_Crypto_Core_V1_Aes_Cbc (fun b => b) (fun b => b)
          CY_CRYPTO_ENCRYPT 8 (List.replicate 16 2) (List.replicate 16 3)
          (List.replicate 16 4) zeroBuffers =
        { status := CY_CRYPTO_SIZE_NOT_X16, ivOut := List.replicate 16 2
          dstOut := List.replicate 16 3, bufsOut := zeroBuffers } ∧
      Cy_Crypto_Core_V1_Aes_Cfb (fun b => b) CY_CRYPTO_ENCRYPT 8
          (List.replicate 16 2) (List.replicate 16 3) (List.replicate 16 4)
          zeroBuffers =
        { status := CY_CRYPTO_SIZE_NOT_X16, ivOut := List.replicate 16 2
          dstOut := List.replicate 16 3, bufsOut := zeroBuffers } ∧
      (Cy_Crypto_Core_V1_Aes_Ecb (fun b => b) (fun b => b) CY_CRYPTO_ENCRYPT
          (List.replicate 16 3) (List.replicate 16 4) zeroBuffers).status =
        CY_CRYPTO_SUCCESS) :=
  ⟨by decide,
   C2_misaligned_rejected (fun b => b) (fun b => b) CY_CRYPTO_ENCRYPT 8
     (List.replicate 16 2) (List.replicate 16 3) (List.replicate 16 4)
     zeroBuffers (by decide)⟩

/-- C4.  CBC round trip: for every block-aligned payload `p`, 16-byte IV,
and accelerator transforms `E`/`D` such that the DECRYPT transform inverts
the ENCRYPT transform (and `E` maps blocks to blocks), CBC-decrypting the
CBC-encryption of `p` under the same IV yields `p` again (the decrypt call
writes exactly `p` into its destination buffer, with both calls
succeeding). -/
theorem C4_cbc_roundtrip (E D : List Nat → List Nat)
    (hED : ∀ b, D (E b) = b) (hE : ∀ b, b.length = 16 → (E b).length = 16)
    (srcSize : Nat) (ivPtr p dstE dstD : List Nat)
    (bufsE bufsD : cy_stc_crypto_aes_buffers_t)
    (hsize : srcSize % 16 = 0) (hp : p.length = srcSize)
    (hiv : ivPtr.length = 16) :
    (Cy_Crypto_Core_V1_Aes_Cbc E D CY_CRYPTO_ENCRYPT srcSize ivPtr dstE p
          bufsE).status = CY_CRYPTO_SUCCESS ∧
      (Cy_Crypto_Core_V1_Aes_Cbc E D CY_CRYPTO_DECRYPT srcSize ivPtr dstD
          ((Cy_Crypto_Core_V1_Aes_Cbc E D CY_CRYPTO_ENCRYPT srcSize ivPtr
              dstE p bufsE).dstOut) bufsD).status = CY_CRYPTO_SUCCESS ∧
      (Cy_Crypto_Core_V1_Aes_Cbc E D CY_CRYPTO_DECRYPT srcSize ivPtr dstD
          ((Cy_Crypto_Core_V1_Aes_Cbc E D CY_CRYPTO_ENCRYPT srcSize ivPtr
              dstE p bufsE).dstOut) bufsD).dstOut = p ++ dstD.drop srcSize := by
  have hand : srcSize &&& (CY_CRYPTO_AES_BLOCK_SIZE - 1) = 0 := by
    rw [and_block_mask_eq_mod]; exact hsize
  have hivt : ivPtr.take CY_CRYPTO_AES_BLOCK_SIZE = ivPtr := by
    rw [CY_CRYPTO_AES_BLOCK_SIZE, ← hiv, List.take_length]
  refine ⟨?_, ?_, ?_⟩
  · simp [Cy_Crypto_Core_V1_Aes_Cbc, hand]
  · simp [Cy_Crypto_Core_V1_Aes_Cbc, hand]
  · simp only [Cy_Crypto_Core_V1_Aes_Cbc, hand, hivt, if_pos, if_neg,
      cbcEncLoop_out, cbcDecLoop_out]
    simp only [reduceCtorEq, if_false, if_true, reduceIte,
      CY_CRYPTO_AES_BLOCK_SIZE]
    rw [cbcOut_roundtrip (Cy_Crypto_Core_V1_Aes_ProcessBlock E D
          CY_CRYPTO_ENCRYPT)
        (Cy_Crypto_Core_V1_Aes_ProcessBlock E D CY_CRYPTO_DECRYPT)
        (fun b => hED b) (fun b hb => hE b hb) (srcSize / 16) p
        (dstE.drop srcSize) ivPtr (by omega) hiv]

/-- C4, witness: identity transforms, a concrete 32-byte payload and a
concrete IV. -/
theorem C4_cbc_roundtrip_witness :
    32 % 16 = 0 ∧
      ((Cy_Crypto_Core_V1_Aes_Cbc (fun b => b) (fun b => b)
            CY_CRYPTO_ENCRYPT 32 (List.replicate 16 5) (List.replicate 32 0)
            (List.range 32) zeroBuffers).status = CY_CRYPTO_SUCCESS ∧
        (Cy_Crypto_Core_V1_Aes_Cbc (fun b => b) (fun b => b)
            CY_CRYPTO_DECRYPT 32 (List.replicate 16 5) (List.replicate 32 9)
            ((Cy_Crypto_Core_V1_Aes_Cbc (fun b => b) (fun b => b)
                 CY_CRYPTO_ENCRYPT 32 (List.replicate 16 5)
                (List.replicate 32 0) (List.range 32)
                zeroBuffers).dstOut) zeroBuffers).status =
          CY_CRYPTO_SUCCESS ∧
        (Cy_Crypto_Core_V1_Aes_Cbc (fun b => b) (fun b => b)
            CY_CRYPTO_DECRYPT 32 (List.replicate 16 5) (List.replicate 32 9)
            ((Cy_Crypto_Core_V1_Aes_Cbc (fun b => b) (fun b => b)
                CY_CRYPTO_ENCRYPT 32 (List.replicate 16 5)
                (List.replicate 32 0) (List.range 32)
                zeroBuffers).dstOut) zeroBuffers).dstOut =
          List.range 32 ++ (List.replicate 32 9).drop 32) :=
  ⟨by decide,
   C4_cbc_roundtrip (fun b => b) (fun b => b) (fun _ => rfl)
     (fun _ hb => hb) 32 (List.replicate 16 5) (List.range 32)
     (List.replicate 32 0) (List.replicate 32 9) zeroBuffers zeroBuffers
     (by decide) (by decide) (by decide)⟩

/-- C5.  CFB round trip: for every block-aligned payload `p`, 16-byte IV,
and forward transform `E` mapping blocks to blocks, CFB decryption inverts
CFB encryption under the same IV — with no inverse transform involved at
all (the embedded `Cy_Crypto_Core_V1_Aes_Cfb` takes only the forward
transform, mirroring the C code's unconditional `CY_CRYPTO_ENCRYPT`
`ProcessBlock` calls), and with the ciphertext block becoming the next
encode-buffer value in both directions. -/
theorem C5_cfb_roundtrip (E : List Nat → List Nat)
    (hE : ∀ b, b.length = 16 → (E b).length = 16)
    (srcSize : Nat) (ivPtr p dstE dstD : List Nat)
    (bufsE bufsD : cy_stc_crypto_aes_buffers_t)
    (hsize : srcSize % 16 = 0) (hp : p.length = srcSize)
    (hiv : ivPtr.length = 16) :
    (Cy_Crypto_Core_V1_Aes_Cfb E CY_CRYPTO_ENCRYPT srcSize ivPtr dstE p
          bufsE).status = CY_CRYPTO_SUCCESS ∧
      (Cy_Crypto_Core_V1_Aes_Cfb E CY_CRYPTO_DECRYPT srcSize ivPtr dstD
          ((Cy_Crypto_Core_V1_Aes_Cfb E CY_CRYPTO_ENCRYPT srcSize ivPtr
              dstE p bufsE).dstOut) bufsD).status = CY_CRYPTO_SUCCESS ∧
      (Cy_Crypto_Core_V1_Aes_Cfb E CY_CRYPTO_DECRYPT srcSize ivPtr dstD
          ((Cy_Crypto_Core_V1_Aes_Cfb E CY_CRYPTO_ENCRYPT srcSize ivPtr
              dstE p bufsE).dstOut) bufsD).dstOut = p ++ dstD.drop srcSize := by
  have hand : srcSize &&& (CY_CRYPTO_AES_BLOCK_SIZE - 1) = 0 := by
    rw [and_block_mask_eq_mod]; exact hsize
  have hivt : ivPtr.take CY_CRYPTO_AES_BLOCK_SIZE = ivPtr := by
    rw [CY_CRYPTO_AES_BLOCK_SIZE, ← hiv, List.take_length]
  refine ⟨?_, ?_, ?_⟩
  · simp [Cy_Crypto_Core_V1_Aes_Cfb, hand]
  · simp [Cy_Crypto_Core_V1_Aes_Cfb, hand]
  · simp only [Cy_Crypto_Core_V1_Aes_Cfb, hand, hivt, if_pos, if_neg,
      cfbEncLoop_out, cfbDecLoop_out]
    simp only [reduceCtorEq, if_false, if_true, reduceIte,
      CY_CRYPTO_AES_BLOCK_SIZE]
    rw [cfbOut_roundtrip E hE (srcSize / 16) p (dstE.drop srcSize) ivPtr
        (by omega) hiv]

/-- C5, witness: identity transform, a concrete 32-byte payload and a
concrete IV. -/
theorem C5_cfb_roundtrip_witness :
    32 % 16 = 0 ∧
      ((Cy_Crypto_Core_V1_Aes_Cfb (fun b => b) CY_CRYPTO_ENCRYPT 32
            (List.replicate 16 5) (List.replicate 32 0) (List.range 32)
            zeroBuffers).status = CY_CRYPTO_SUCCESS ∧
        (Cy_Crypto_Core_V1_Aes_Cfb (fun b => b) CY_CRYPTO_DECRYPT 32
            (List.replicate 16 5) (List.replicate 32 9)
            ((Cy_Crypto_Core_V1_Aes_Cfb (fun b => b) CY_CRYPTO_ENCRYPT 32
                (List.replicate 16 5) (List.replicate 32 0) (List.range 32)
                zeroBuffers).dstOut) zeroBuffers).status =
          CY_CRYPTO_SUCCESS ∧
        (Cy_Crypto_Core_V1_Aes_Cfb (fun b => b) CY_CRYPTO_DECRYPT 32
            (List.replicate 16 5) (List.replicate 32 9)
            ((Cy_Crypto_Core_V1_Aes_Cfb (fun b => b) CY_CRYPTO_ENCRYPT 32
                (List.replicate 16 5) (List.replicate 32 0) (List.range 32)
                zeroBuffers).dstOut) zeroBuffers).dstOut =
          List.range 32 ++ (List.replicate 32 9).drop 32) :=
  ⟨by decide,
   C5_cfb_roundtrip (fun b => b) (fun _ hb => hb) 32 (List.replicate 16 5)
     (List.range 32) (List.replicate 32 0) (List.replicate 32 9) zeroBuffers
     zeroBuffers (by decide) (by decide) (by decide)⟩

/-- C3.  For every CTR call on a 16-byte byte-valued `iv`: the call
succeeds, the high 64 bits (nonce) written back to the caller's `iv` equal
the original ones, the low 64 bits equal the initial big-endian counter
value plus `N = srcSize / 16` (the number of full blocks processed) modulo
`2^64`, and the value stored to `*srcOffset` is `srcSize mod 16`. -/
theorem C3_ctr_counter_increment (E : List Nat → List Nat)
    (srcSize so : Nat) (ivPtr sb dst src : List Nat)
    (bufs : cy_stc_crypto_aes_buffers_t)
    (hiv : ivPtr.length = 16) (hb : ∀ x ∈ ivPtr, x < 256) :
    (Cy_Crypto_Core_V1_Aes_Ctr E srcSize so ivPtr sb dst src bufs).status =
        CY_CRYPTO_SUCCESS ∧
      (Cy_Crypto_Core_V1_Aes_Ctr E srcSize so ivPtr sb dst src
          bufs).ivOut.take 8 = ivPtr.take 8 ∧
      be64ToNat ((Cy_Crypto_Core_V1_Aes_Ctr E srcSize so ivPtr sb dst src
          bufs).ivOut.drop 8) =
        (be64ToNat (ivPtr.drop 8) + srcSize / 16) % 2 ^ 64 ∧
      (Cy_Crypto_Core_V1_Aes_Ctr E srcSize so ivPtr sb dst src
          bufs).srcOffsetOut = srcSize % 16 := by
  obtain ⟨hst, hivo, _, hoff⟩ :=
    ctr_entry E srcSize so ivPtr sb dst src bufs hiv hb
  have htake8 : (ivPtr.take 8).length = 8 := by
    rw [List.length_take]; omega
  refine ⟨hst, ?_, ?_, hoff⟩
  · rw [hivo, List.take_left' htake8]
  · rw [hivo, List.drop_left' htake8, be64ToNat_be64]

/-- C3, witness at the concrete size 40 (two full blocks, offset 8) and a
concrete byte-valued IV. -/
theorem C3_ctr_counter_increment_witness :
    (List.range 16).length = 16 ∧
      ((Cy_Crypto_Core_V1_Aes_Ctr (fun b => b) 40 3 (List.range 16)
            (List.replicate 16 0) (List.replicate 40 0) (List.replicate 40 7)
            zeroBuffers).status = CY_CRYPTO_SUCCESS ∧
        (Cy_Crypto_Core_V1_Aes_Ctr (fun b => b) 40 3 (List.range 16)
            (List.replicate 16 0) (List.replicate 40 0) (List.replicate 40 7)
            zeroBuffers).ivOut.take 8 = (List.range 16).take 8 ∧
        be64ToNat ((Cy_Crypto_Core_V1_Aes_Ctr (fun b => b) 40 3
            (List.range 16) (List.replicate 16 0) (List.replicate 40 0)
            (List.replicate 40 7) zeroBuffers).ivOut.drop 8) =
          (be64ToNat ((List.range 16).drop 8) + 40 / 16) % 2 ^ 64 ∧
        (Cy_Crypto_Core_V1_Aes_Ctr (fun b => b) 40 3 (List.range 16)
            (List.replicate 16 0) (List.replicate 40 0) (List.replicate 40 7)
            zeroBuffers).srcOffsetOut = 40 % 16) :=
  ⟨by decide,
   C3_ctr_counter_increment (fun b => b) 40 3 (List.range 16)
     (List.replicate 16 0) (List.replicate 40 0) (List.replicate 40 7)
     zeroBuffers (by decide) (by decide)⟩

/-- C6.  CTR resumability: for every 48-byte payload, forward transform and
16-byte byte-valued initial nonce+counter, encrypting the payload in one
CTR call produces the same ciphertext, the same written-back counter and
the same reported offset as encrypting it in three sequential 16-byte CTR
calls that pass the `iv` and `srcOffset` state from each call into the next
(`ctrThree`). -/
theorem C6_ctr_resumable (E : List Nat → List Nat) (soS so1 : Nat)
    (p ivPtr sbS sb1 sb2 sb3 dS d1 d2 d3 : List Nat)
    (bufs : cy_stc_crypto_aes_buffers_t)
    (_hp : p.length = 48) (hiv : ivPtr.length = 16)
    (hb : ∀ x ∈ ivPtr, x < 256) (hdS : dS.length = 48)
    (hd1 : d1.length = 16) (hd2 : d2.length = 16) (hd3 : d3.length = 16) :
    (Cy_Crypto_Core_V1_Aes_Ctr E 48 soS ivPtr sbS dS p bufs).dstOut =
        (ctrThree E so1 ivPtr sb1 sb2 sb3 d1 d2 d3 p bufs).1.dstOut ++
          (ctrThree E so1 ivPtr sb1 sb2 sb3 d1 d2 d3 p bufs).2.1.dstOut ++
          (ctrThree E so1 ivPtr sb1 sb2 sb3 d1 d2 d3 p bufs).2.2.dstOut ∧
      (Cy_Crypto_Core_V1_Aes_Ctr E 48 soS ivPtr sbS dS p bufs).ivOut =
        (ctrThree E so1 ivPtr sb1 sb2 sb3 d1 d2 d3 p bufs).2.2.ivOut ∧
      (Cy_Crypto_Core_V1_Aes_Ctr E 48 soS ivPtr sbS dS p
          bufs).srcOffsetOut =
        (ctrThree E so1 ivPtr sb1 sb2 sb3 d1 d2 d3 p
          bufs).2.2.srcOffsetOut := by
  have htake8 : (ivPtr.take 8).length = 8 := by
    rw [List.length_take]; omega
  have hd8len : (ivPtr.drop 8).length = 8 := by
    rw [List.length_drop]; omega
  have hbd : ∀ x ∈ ivPtr.drop 8, x < 256 :=
    fun x hx => hb x (List.drop_subset _ _ hx)
  have hdec : ivPtr.drop 8 = be64 (be64ToNat (ivPtr.drop 8)) :=
    (be64_be64ToNat hd8len hbd).symm
  have hc0lt : be64ToNat (ivPtr.drop 8) < 2 ^ 64 := be64ToNat_lt hd8len hbd
  have hdSnil : dS.drop 48 = [] := by rw [← hdS, List.drop_length]
  have hd1nil : d1.drop 16 = [] := by rw [← hd1, List.drop_length]
  have hd2nil : d2.drop 16 = [] := by rw [← hd2, List.drop_length]
  have hd3nil : d3.drop 16 = [] := by rw [← hd3, List.drop_length]
  simp only [ctrThree]
  obtain ⟨-, hSiv, hSdst, hSoff⟩ :=
    ctr_entry E 48 soS ivPtr sbS dS p bufs hiv hb
  norm_num at hSiv hSdst hSoff
  obtain ⟨-, h1iv, h1dst, h1off⟩ :=
    ctr_entry E 16 so1 ivPtr sb1 d1 (p.take 16) bufs hiv hb
  norm_num at h1iv h1dst h1off
  set R1 := Cy_Crypto_Core_V1_Aes_Ctr E 16 so1 ivPtr sb1 d1 (p.take 16) bufs
    with hR1
  obtain ⟨-, h2iv, h2dst, h2off⟩ :=
    ctr_entry E 16 R1.srcOffsetOut R1.ivOut sb2 d2 ((p.drop 16).take 16)
      R1.bufsOut (by rw [h1iv]; exact length_take8_be64 hiv _)
      (by rw [h1iv]; exact mem_take8_be64_lt hb _)
  norm_num at h2iv h2dst h2off
  set R2 := Cy_Crypto_Core_V1_Aes_Ctr E 16 R1.srcOffsetOut R1.ivOut sb2 d2
    ((p.drop 16).take 16) R1.bufsOut with hR2
  rw [h1iv, List.take_left' htake8, List.drop_left' htake8, be64ToNat_be64]
    at h2iv
  rw [h1iv, List.drop_left' htake8, be64ToNat_be64] at h2dst
  obtain ⟨-, h3iv, h3dst, h3off⟩ :=
    ctr_entry E 16 R2.srcOffsetOut R2.ivOut sb3 d3 (p.drop 32) R2.bufsOut
      (by rw [h2iv]; exact length_take8_be64 hiv _)
      (by rw [h2iv]; exact mem_take8_be64_lt hb _)
  norm_num at h3iv h3dst h3off
  set R3 := Cy_Crypto_Core_V1_Aes_Ctr E 16 R2.srcOffsetOut R2.ivOut sb3 d3
    (p.drop 32) R2.bufsOut with hR3
  rw [h2iv, List.take_left' htake8, List.drop_left' htake8, be64ToNat_be64]
    at h3iv
  rw [h2iv, List.drop_left' htake8, be64ToNat_be64] at h3dst
  have hs3 := ctrOut_split E 1 2 (be64ToNat (ivPtr.drop 8)) ivPtr p hiv
    hdec hc0lt
  norm_num at hs3
  have hs2 := ctrOut_split E 1 1 ((be64ToNat (ivPtr.drop 8) + 1) % 2 ^ 64)
    (ivPtr.take 8 ++ be64 (be64ToNat (ivPtr.drop 8) + 1)) (p.drop 16)
    (length_take8_be64 hiv _)
    (by rw [List.drop_left' htake8]; exact (be64_mod _).symm)
    (Nat.mod_lt _ (by norm_num))
  norm_num at hs2
  refine ⟨?_, ?_, ?_⟩
  · rw [hSdst, hdSnil, List.append_nil, hs3, hs2, h1dst, h2dst, h3dst,
      hd1nil, hd2nil, hd3nil, List.append_nil, List.append_nil,
      List.append_nil]
    have h32 : (16 : Nat) + 16 = 32 := by norm_num
    simp only [ctrOut_one, List.take_take, Nat.min_self, List.drop_drop,
      h32, List.take_left' htake8, List.append_assoc]
    norm_num
  · rw [hSiv, h3iv]
    exact congrArg _ (be64_congr (by omega))
  · rw [hSoff, h3off]

/-- C6, witness: identity transform, the 48-byte payload 0..47, the 16-byte
IV 0..15 and concrete destination buffers. -/
theorem C6_ctr_resumable_witness :
    (List.range 48).length = 48 ∧
      ((Cy_Crypto_Core_V1_Aes_Ctr (fun b => b) 48 0 (List.range 16)
            (List.replicate 16 3) (List.replicate 48 0) (List.range 48)
            zeroBuffers).dstOut =
          (ctrThree (fun b => b) 5 (List.range 16) (List.replicate 16 3)
              (List.replicate 16 3) (List.replicate 16 3)
              (List.replicate 16 0) (List.replicate 16 1)
              (List.replicate 16 2) (List.range 48)
              zeroBuffers).1.dstOut ++
            (ctrThree (fun b => b) 5 (List.range 16) (List.replicate 16 3)
              (List.replicate 16 3) (List.replicate 16 3)
              (List.replicate 16 0) (List.replicate 16 1)
              (List.replicate 16 2) (List.range 48)
              zeroBuffers).2.1.dstOut ++
            (ctrThree (fun b => b) 5 (List.range 16) (List.replicate 16 3)
              (List.replicate 16 3) (List.replicate 16 3)
              (List.replicate 16 0) (List.replicate 16 1)
              (List.replicate 16 2) (List.range 48)
              zeroBuffers).2.2.dstOut ∧
        (Cy_Crypto_Core_V1_Aes_Ctr (fun b => b) 48 0 (List.range 16)
            (List.replicate 16 3) (List.replicate 48 0) (List.range 48)
            zeroBuffers).ivOut =
          (ctrThree (fun b => b) 5 (List.range 16) (List.replicate 16 3)
            (List.replicate 16 3) (List.replicate 16 3) (List.replicate 16 0)
            (List.replicate 16 1) (List.replicate 16 2) (List.range 48)
            zeroBuffers).2.2.ivOut ∧
        (Cy_Crypto_Core_V1_Aes_Ctr (fun b => b) 48 0 (List.range 16)
            (List.replicate 16 3) (List.replicate 48 0) (List.range 48)
            zeroBuffers).srcOffsetOut =
          (ctrThree (fun b => b) 5 (List.range 16) (List.replicate 16 3)
            (List.replicate 16 3) (List.replicate 16 3) (List.replicate 16 0)
            (List.replicate 16 1) (List.replicate 16 2) (List.range 48)
            zeroBuffers).2.2.srcOffsetOut) :=
  ⟨by decide,
   C6_ctr_resumable (fun b => b) 0 5 (List.range 48) (List.range 16)
     (List.replicate 16 3) (List.replicate 16 3) (List.replicate 16 3)
     (List.replicate 16 3) (List.replicate 48 0) (List.replicate 16 0)
     (List.replicate 16 1) (List.replicate 16 2) zeroBuffers (by decide)
     (by decide) (by decide) (by decide) (by decide) (by decide)
     (by decide)⟩

/-- C9.  For every block-aligned `srcSize`, both directions of `cbc` and
`cfb` succeed and return the caller's `iv` buffer exactly as it was given:
the IV is copied into a scratch working block before the loop and the
rolling chain state lives entirely in scratch, so the bytes at `ivPtr` are
never written. -/
theorem C9_iv_buffer_preserved (E D : List Nat → List Nat)
    (dirMode : cy_en_crypto_dir_mode_t) (srcSize : Nat)
    (ivPtr dst src : List Nat) (bufs : cy_stc_crypto_aes_buffers_t)
    (hsize : srcSize % 16 = 0) :
    (Cy_Crypto_Core_V1_Aes_Cbc E D dirMode srcSize ivPtr dst src
          bufs).status = CY_CRYPTO_SUCCESS ∧
      (Cy_Crypto_Core_V1_Aes_Cbc E D dirMode srcSize ivPtr dst src
          bufs).ivOut = ivPtr ∧
      (Cy_Crypto_Core_V1_Aes_Cfb E dirMode srcSize ivPtr dst src
          bufs).status = CY_CRYPTO_SUCCESS ∧
      (Cy_Crypto_Core_V1_Aes_Cfb E dirMode srcSize ivPtr dst src
          bufs).ivOut = ivPtr := by
  cases dirMode <;>
    simp [Cy_Crypto_Core_V1_Aes_Cbc, Cy_Crypto_Core_V1_Aes_Cfb,
      and_block_mask_eq_mod, hsize]

/-- C9, witness at the concrete aligned size 16. -/
theorem C9_iv_buffer_preserved_witness :
    16 % 16 = 0 ∧
      ((Cy_Crypto_Core_V1_Aes_Cbc (fun b => b) (fun b => b)
            CY_CRYPTO_ENCRYPT 16 (List.replicate 16 2) (List.replicate 16 3)
            (List.replicate 16 4) zeroBuffers).status = CY_CRYPTO_SUCCESS ∧
        (Cy_Crypto_Core_V1_Aes_Cbc (fun b => b) (fun b => b)
            CY_CRYPTO_ENCRYPT 16 (List.replicate 16 2) (List.replicate 16 3)
            (List.replicate 16 4) zeroBuffers).ivOut = List.replicate 16 2 ∧
        (Cy_Crypto_Core_V1_Aes_Cfb (fun b => b) CY_CRYPTO_ENCRYPT 16
            (List.replicate 16 2) (List.replicate 16 3) (List.replicate 16 4)
            zeroBuffers).status = CY_CRYPTO_SUCCESS ∧
        (Cy_Crypto_Core_V1_Aes_Cfb (fun b => b) CY_CRYPTO_ENCRYPT 16
            (List.replicate 16 2) (List.replicate 16 3) (List.replicate 16 4)
            zeroBuffers).ivOut = List.replicate 16 2) :=
  ⟨by decide,
   C9_iv_buffer_preserved (fun b => b) (fun b => b) CY_CRYPTO_ENCRYPT 16
     (List.replicate 16 2) (List.replicate 16 3) (List.replicate 16 4)
     zeroBuffers (by decide)⟩

/-- C10.  `Cy_Crypto_Core_V1_Aes_Ctr` never writes the caller's
`streamBlock` buffer, and neither the incoming `*srcOffset` value nor the
`streamBlock` contents influence any output: the status, the ciphertext, the
counter written back to `iv`, the stored `*srcOffset` and the final scratch
state are identical across arbitrary changes of those two inputs. -/
theorem C10_ctr_ignores_offset_and_streamblock (E : List Nat → List Nat)
    (srcSize so so' : Nat) (ivPtr sb sb' dst src : List Nat)
    (bufs : cy_stc_crypto_aes_buffers_t) :
    (Cy_Crypto_Core_V1_Aes_Ctr E srcSize so ivPtr sb dst src
          bufs).streamBlockOut = sb ∧
      (Cy_Crypto_Core_V1_Aes_Ctr E srcSize so ivPtr sb dst src
          bufs).status =
        (Cy_Crypto_Core_V1_Aes_Ctr E srcSize so' ivPtr sb' dst src
          bufs).status ∧
      (Cy_Crypto_Core_V1_Aes_Ctr E srcSize so ivPtr sb dst src
          bufs).srcOffsetOut =
        (Cy_Crypto_Core_V1_Aes_Ctr E srcSize so' ivPtr sb' dst src
          bufs).srcOffsetOut ∧
      (Cy_Crypto_Core_V1_Aes_Ctr E srcSize so ivPtr sb dst src
          bufs).ivOut =
        (Cy_Crypto_Core_V1_Aes_Ctr E srcSize so' ivPtr sb' dst src
          bufs).ivOut ∧
      (Cy_Crypto_Core_V1_Aes_Ctr E srcSize so ivPtr sb dst src
          bufs).dstOut =
        (Cy_Crypto_Core_V1_Aes_Ctr E srcSize so' ivPtr sb' dst src
          bufs).dstOut ∧
      (Cy_Crypto_Core_V1_Aes_Ctr E srcSize so ivPtr sb dst src
          bufs).bufsOut =
        (Cy_Crypto_Core_V1_Aes_Ctr E srcSize so' ivPtr sb' dst src
          bufs).bufsOut :=
  ⟨rfl, rfl, rfl, rfl, rfl, rfl⟩

end CryptoAesV1

